import Mathlib

/-!
Shallow embedding of the git-spice merge orchestrator, downstack validator,
CI merge guard, untrack command, and Bitbucket credential loading,
translated from the Go sources, together with theorems checking the
natural-language specification against them.
-/

set_option maxRecDepth 4096

namespace GitSpice

/-- A forge change identifier (`forge.ChangeID`), rendered as a string. -/
abbrev ChangeID := String

/-- State of a change request on the forge (`forge.ChangeState`). -/
inductive ChangeState where
  | Open
  | Closed
  | Merged
deriving DecidableEq, Repr

/-- A single branch+change to merge (`mergeItem` in `handler/merge/handler.go`). -/
structure MergeItem where
  branch : String
  changeID : ChangeID
deriving DecidableEq, Repr

/-- Result of `Service.LookupBranch`: the part the merge handler reads,
namely the optional change record bound to the branch. -/
structure LookupBranchResponse where
  change : Option ChangeID
deriving DecidableEq, Repr

/-- Observable calls the merge handler makes against the user and the forge. -/
inductive MergeEvent where
  | changesStates (ids : List ChangeID)
  | confirmPrompt
  | mergeChange (id : ChangeID)
  | awaitMerged (id : ChangeID)
  | editChange (id : ChangeID) (base : String)
deriving DecidableEq, Repr

/-- Environment of `merge.Handler`: the store, service, forge and prompt
oracles the handler consults.  `stateOf` embeds the `ChangesStates`
contract (one state per id, in input order); `awaitResult` is the outcome
of one `awaitMerged` call; `mergeResult` and `editResult` are the
outcomes of `MergeChange` and `EditChange`. -/
structure MergeEnv where
  trunk : String
  listDownstack : Except String (List String)
  lookup : String → Except String LookupBranchResponse
  stateOf : ChangeID → ChangeState
  confirmResult : Except String Bool
  mergeResult : ChangeID → Except String Unit
  awaitResult : ChangeID → Except String Unit
  editResult : ChangeID → Except String Unit

/-- `Handler.resolveChanges`: look up each branch, require a published
change, and collect `MergeItem`s in order. -/
def resolveChanges (lookup : String → Except String LookupBranchResponse) :
    List String → Except String (List MergeItem)
  | [] => .ok []
  | name :: rest =>
    match lookup name with
    | .error e => .error ("lookup branch " ++ name ++ ": " ++ e)
    | .ok resp =>
      match resp.change with
      | none => .error ("branch " ++ name ++ " has no published change request")
      | some cid =>
        match resolveChanges lookup rest with
        | .error e => .error e
        | .ok items => .ok (⟨name, cid⟩ :: items)

/-- The per-item loop body of `Handler.filterMerged`: drop `Merged`,
fail on `Closed`, keep `Open`. -/
def filterMergedLoop (stateOf : ChangeID → ChangeState) :
    List MergeItem → Except String (List MergeItem)
  | [] => .ok []
  | item :: rest =>
    match stateOf item.changeID with
    | .Merged => filterMergedLoop stateOf rest
    | .Closed => .error ("branch " ++ item.branch ++ " is closed, cannot merge")
    | .Open =>
      match filterMergedLoop stateOf rest with
      | .error e => .error e
      | .ok plan => .ok (item :: plan)

/-- `Handler.filterMerged`: one batched `ChangesStates` query over all
change ids, then the per-item filtering loop. -/
def filterMerged (stateOf : ChangeID → ChangeState) (items : List MergeItem) :
    List MergeEvent × Except String (List MergeItem) :=
  ([.changesStates (items.map (·.changeID))], filterMergedLoop stateOf items)

/-- `Handler.buildPlan`: list the downstack (top-first), reverse to
bottom-up, resolve changes, filter by forge state. -/
def buildPlan (env : MergeEnv) : List MergeEvent × Except String (List MergeItem) :=
  match env.listDownstack with
  | .error e => ([], .error ("list downstack: " ++ e))
  | .ok downstack =>
    match resolveChanges env.lookup downstack.reverse with
    | .error e => ([], .error e)
    | .ok items => filterMerged env.stateOf items

/-- `Handler.settleAndRetarget`: wait for the merged change to settle,
then retarget the next change to trunk. -/
def settleAndRetarget (env : MergeEnv) (next merged : MergeItem) :
    List MergeEvent × Except String Unit :=
  match env.awaitResult merged.changeID with
  | .error e =>
    ([.awaitMerged merged.changeID],
      .error ("await merge of " ++ merged.branch ++ ": " ++ e))
  | .ok _ =>
    match env.editResult next.changeID with
    | .error e =>
      ([.awaitMerged merged.changeID, .editChange next.changeID env.trunk],
        .error ("retarget " ++ next.branch ++ " to " ++ env.trunk ++ ": " ++ e))
    | .ok _ =>
      ([.awaitMerged merged.changeID, .editChange next.changeID env.trunk], .ok ())

/-- `Handler.executePlan`: merge each item bottom-up; between items
(unless `noWait`) wait for the merge to settle and retarget the next
change to trunk. -/
def executePlan (env : MergeEnv) (noWait : Bool) :
    List MergeItem → List MergeEvent × Except String Unit
  | [] => ([], .ok ())
  | item :: rest =>
    match env.mergeResult item.changeID with
    | .error e =>
      ([.mergeChange item.changeID], .error ("merge " ++ item.branch ++ ": " ++ e))
    | .ok _ =>
      match rest with
      | [] => ([.mergeChange item.changeID], .ok ())
      | next :: _ =>
        if noWait then
          let (evs, r) := executePlan env noWait rest
          (.mergeChange item.changeID :: evs, r)
        else
          match settleAndRetarget env next item with
          | (evs, .error e) => (.mergeChange item.changeID :: evs, .error e)
          | (evs, .ok _) =>
            let (evs2, r) := executePlan env noWait rest
            (.mergeChange item.changeID :: (evs ++ evs2), r)

/-- `Handler.MergeDownstack`: build the plan, return early if empty,
confirm interactively, then execute. -/
def mergeDownstack (env : MergeEnv) (noWait : Bool) :
    List MergeEvent × Except String Unit :=
  match buildPlan env with
  | (evs, .error e) => (evs, .error e)
  | (evs, .ok plan) =>
    if plan.isEmpty then
      (evs, .ok ())
    else
      match env.confirmResult with
      | .error e => (evs ++ [.confirmPrompt], .error ("run prompt: " ++ e))
      | .ok proceed =>
        if proceed then
          let (evs2, r) := executePlan env noWait plan
          (evs ++ [.confirmPrompt] ++ evs2, r)
        else
          (evs ++ [.confirmPrompt], .error "merge aborted")

/-! ### awaitMerged (`Handler.awaitMerged`)

Times are in milliseconds.  The polls are modelled by a state oracle
`states : Nat → ChangeState` giving what `ChangesStates([id])` reports at
the n-th poll.  The context deadline (`_timeout`) fires during the sleep
whenever the sleep would cross it (the schedule never lands exactly on
the deadline). -/

/-- Initial backoff delay of `awaitMerged` (500 ms). -/
def initialDelay : Nat := 500

/-- Maximum backoff delay of `awaitMerged` (8 s). -/
def maxDelay : Nat := 8000

/-- Total timeout of `awaitMerged` (2 min). -/
def awaitTimeout : Nat := 120000

/-- The backoff update of `awaitMerged`: `delay = min(delay*2, _maxDelay)`. -/
def nextDelay (d : Nat) : Nat := min (d * 2) maxDelay

/-- The polling loop of `Handler.awaitMerged`.  `elapsed` is the time
spent so far, `delay` the pending backoff delay; `fuel` only bounds the
recursion and is chosen large enough to never run out before the
deadline. -/
def awaitLoop (states : Nat → ChangeState) (elapsed delay : Nat) :
    Nat → Except String Unit
  | 0 => .error "timed out waiting for merge"
  | fuel + 1 =>
    if states 0 = .Merged then .ok ()
    else if elapsed + delay < awaitTimeout then
      awaitLoop (fun n => states (n + 1)) (elapsed + delay) (nextDelay delay) fuel
    else .error "timed out waiting for merge"

/-- Number of polls the loop performs from a given elapsed/delay state
when no poll ever reports `Merged`. -/
def awaitPollCount (elapsed delay : Nat) : Nat → Nat
  | 0 => 0
  | fuel + 1 =>
    if elapsed + delay < awaitTimeout then
      awaitPollCount (elapsed + delay) (nextDelay delay) fuel + 1
    else 1

/-- `Handler.awaitMerged`: poll with exponential backoff from 500 ms
under a 2 min deadline.  Fuel 32 exceeds the 19 polls that fit in the
deadline. -/
def awaitMerged (states : Nat → ChangeState) : Except String Unit :=
  awaitLoop states 0 initialDelay 32

/-- The sequence of backoff delays of `awaitMerged`: the delay slept
after the n-th unsuccessful poll. -/
def delaySeq : Nat → Nat
  | 0 => initialDelay
  | k + 1 => nextDelay (delaySeq k)

/-- Elapsed time at which the n-th poll is issued. -/
def pollTime : Nat → Nat
  | 0 => 0
  | k + 1 => pollTime k + delaySeq k

/-! ### Branch graph and `spice.ValidateDownstack` -/

/-- The per-branch data `ValidateDownstack` reads from the graph:
the base name and the optional bound change. -/
structure BranchItem where
  base : String
  change : Option ChangeID
deriving DecidableEq, Repr

/-- The branch graph as seen by `ValidateDownstack`: the trunk name and
the tracked branches as an association list. -/
structure BranchGraph where
  trunk : String
  branches : List (String × BranchItem)
deriving Repr

/-- `BranchGraph.Lookup`. -/
def BranchGraph.lookup (g : BranchGraph) (name : String) : Option BranchItem :=
  (g.branches.find? (fun p => p.1 = name)).map (·.2)

/-- Chain walk underlying the downstack iterator: the branch itself,
then its base chain, stopping at trunk or at an untracked branch. -/
def downstackAux (g : BranchGraph) : String → Nat → List String
  | _, 0 => []
  | b, fuel + 1 =>
    if b = g.trunk then []
    else
      match g.lookup b with
      | none => []
      | some item => b :: downstackAux g item.base fuel

/-- Modelled from the spec: the `BranchGraph.Downstack` iterator is not
among the sources; per section 4.7 (the downstack of a branch is walked
top-first, the branch itself included, ending at trunk) and the
`ValidateDownstack` unit tests, it yields the branch followed by its
base chain, excluding trunk.  The fuel `branches.length + 1` suffices
for every acyclic stored graph. -/
def BranchGraph.downstack (g : BranchGraph) (b : String) : List String :=
  downstackAux g b (g.branches.length + 1)

/-- `spice.StaleBaseError`: a branch whose base was merged on the forge
but not yet rebased onto trunk. -/
structure StaleBaseError where
  branch : String
  base : String
deriving DecidableEq, Repr

/-- `spice.staleBaseCandidate`: a branch whose base has a published
change that needs forge state verification. -/
structure StaleBaseCandidate where
  branch : String
  base : String
  changeID : ChangeID
deriving DecidableEq, Repr

/-- The loop body of `collectStaleCandidates` applied to one downstack
entry: skip when the branch is unknown or its base is trunk, skip when
the base is unknown or has no published change, otherwise yield the
candidate. -/
def staleCandidateOf (g : BranchGraph) (name : String) : Option StaleBaseCandidate :=
  (g.lookup name).bind fun item =>
    if item.base = g.trunk then none
    else
      (g.lookup item.base).bind fun baseItem =>
        baseItem.change.bind fun cid => some ⟨name, item.base, cid⟩

/-- `spice.collectStaleCandidates`: walk the downstack and keep branches
whose base is not trunk and has a published change. -/
def collectStaleCandidates (g : BranchGraph) (branch : String) :
    List StaleBaseCandidate :=
  (g.downstack branch).filterMap (staleCandidateOf g)

/-- The scan in `spice.checkStaleStates`: first candidate whose change
state is `Merged`, as a `StaleBaseError`. -/
def firstMergedCandidate (stateOf : ChangeID → ChangeState) :
    List StaleBaseCandidate → Option StaleBaseError
  | [] => none
  | c :: rest =>
    if stateOf c.changeID = .Merged then some ⟨c.branch, c.base⟩
    else firstMergedCandidate stateOf rest

/-- `spice.ValidateDownstack`: collect candidates; when none, return
without querying the forge; otherwise batch-query the change states and
fail on the first merged base. -/
def validateDownstack (g : BranchGraph) (stateOf : ChangeID → ChangeState)
    (branch : String) : Option StaleBaseError :=
  match collectStaleCandidates g branch with
  | [] => none
  | candidates => firstMergedCandidate stateOf candidates

/-! ### `ci merge-guard` (`ci_merge_guard.go`) -/

/-- Inputs of one `ci merge-guard` invocation after the change request
has been fetched: the `--trunk` and `--all` flags, the navigation
comment search result (`none` when the change has no git-spice
navigation comment; `some t` when a navigation comment was found and
`ExtractTrunkFromComment` returned `t`, possibly empty), and the base
branch of the change request. -/
structure GuardInput where
  trunkFlag : Option String
  allFlag : Bool
  navComment : Option String
  baseName : String
deriving DecidableEq, Repr

/-- `ciMergeGuardCmd.trunkFromNavComment`: the extracted trunk and
whether the change is managed (a navigation comment exists). -/
def trunkFromNavComment (inp : GuardInput) : String × Bool :=
  match inp.navComment with
  | some t => (t, true)
  | none => ("", false)

/-- `ciMergeGuardCmd.detectTrunk`: an explicit `--trunk` wins and marks
the change managed; otherwise the navigation comment is consulted; a
managed change with no extractable trunk is an error. -/
def detectTrunk (inp : GuardInput) : Except String (String × Bool) :=
  match inp.trunkFlag with
  | some t => .ok (t, true)
  | none =>
    let (trunk, managed) := trunkFromNavComment inp
    if trunk ≠ "" then .ok (trunk, managed)
    else if !managed then .ok ("", false)
    else .error "could not determine trunk"

/-- `ciMergeGuardCmd.evaluate`: `true` means exit status 0.  Unmanaged
changes pass unless `--all`; managed changes pass exactly when their
base is the detected trunk. -/
def evaluate (allFlag : Bool) (baseName trunk : String) (managed : Bool) : Bool :=
  if !managed then !allFlag
  else baseName = trunk

/-- `ciMergeGuardCmd.Run` from trunk detection onward: `true` means the
command exits 0. -/
def mergeGuard (inp : GuardInput) : Bool :=
  match detectTrunk inp with
  | .error _ => false
  | .ok (trunk, managed) => evaluate inp.allFlag inp.baseName trunk managed

/-! ### `branch untrack` (`branch_untrack.go`) -/

/-- Error kinds surfaced by the state store (`state.ErrNotExist` and
everything else). -/
inductive StateError where
  | errNotExist
  | other (msg : String)
deriving DecidableEq, Repr

/-- The tracked-branch store as an association list `name ↦ base`
(the part `ForgetBranch` mutates). -/
abbrev TrackStore := List (String × String)

/-- Modelled from the spec: `Service.ForgetBranch` is not among the
sources; per section 4.8 (Untrack: delete the record, reparent every
child onto the former base, fail with `ErrNotExist` if not tracked). -/
def forgetBranch (store : TrackStore) (branch : String) :
    Except StateError TrackStore :=
  match (store.find? (fun p => p.1 = branch)).map (·.2) with
  | none => .error .errNotExist
  | some base =>
    .ok ((store.filter (fun p => p.1 ≠ branch)).map
      (fun p => if p.2 = branch then (p.1, base) else p))

/-- `branchUntrackCmd.Run` after the branch name is resolved: forget the
branch, translating `ErrNotExist` into the fixed message.  Returns the
resulting store alongside the outcome; on error the store is unchanged. -/
def branchUntrackRun (store : TrackStore) (branch : String) :
    TrackStore × Except String Unit :=
  match forgetBranch store branch with
  | .error .errNotExist => (store, .error "branch not tracked")
  | .error (.other e) => (store, .error ("forget branch: " ++ e))
  | .ok store2 => (store2, .ok ())

/-! ### Bitbucket `LoadAuthenticationToken` (`internal/forge/bitbucket/auth.go`) -/

/-- Authentication method used (`bitbucket.AuthType`). -/
inductive AuthType where
  | appPassword
  | gcm
  | environmentVariable
deriving DecidableEq, Repr

/-- Token returned by the Bitbucket forge (`bitbucket.AuthenticationToken`). -/
structure AuthenticationToken where
  authType : AuthType
  accessToken : String
  email : String
deriving DecidableEq, Repr

/-- `Forge.LoadAuthenticationToken`: environment token first, then the
secret stash (`loadStoredToken`), then git-credential-manager
(`loadGCMCredentials`); an error only when all three fail.  `envToken`
is `f.Options.Token` (empty when the variable is unset); `stored` and
`gcm` are the outcomes of the two fallible loaders. -/
def loadAuthenticationToken (envToken : String)
    (stored gcm : Except String AuthenticationToken) :
    Except String AuthenticationToken :=
  if envToken ≠ "" then
    .ok ⟨.environmentVariable, envToken, ""⟩
  else
    match stored with
    | .ok t => .ok t
    | .error _ =>
      match gcm with
      | .ok t => .ok t
      | .error _ => .error "no authentication token available"

/-! ### `branch merge` (`branch_merge.go`) -/

/-- Observable stages of `branchMergeCmd.Run` after the branch name has
been resolved. -/
inductive CmdEvent where
  | buildGraph
  | validateDownstack
  | forge (e : MergeEvent)
deriving DecidableEq, Repr

/-- `branchMergeCmd.checkDownstack`: skipped under `--no-branch-check`;
otherwise build the branch graph and run the stale-base validator,
wrapping a `StaleBaseError` with guidance. -/
def checkDownstack (noBranchCheck : Bool)
    (graphResult : Except String BranchGraph)
    (stateOf : ChangeID → ChangeState) (branch : String) :
    List CmdEvent × Except String Unit :=
  if noBranchCheck then ([], .ok ())
  else
    match graphResult with
    | .error e => ([.buildGraph], .error ("build branch graph: " ++ e))
    | .ok graph =>
      match validateDownstack graph stateOf branch with
      | some se =>
        ([.buildGraph, .validateDownstack],
          .error (se.branch ++ " has stale base " ++ se.base ++
            " (already merged); run gs repo sync first, or use --no-branch-check to bypass"))
      | none => ([.buildGraph, .validateDownstack], .ok ())

/-- `branchMergeCmd.Run` after the branch name has been resolved
(explicit `--branch` or the current branch): refuse to merge trunk,
validate the downstack, then hand off to `MergeDownstack`. -/
def branchMergeRun (trunk : String) (graphResult : Except String BranchGraph)
    (stateOf : ChangeID → ChangeState) (env : MergeEnv)
    (branch : String) (noWait noBranchCheck : Bool) :
    List CmdEvent × Except String Unit :=
  if branch = trunk then ([], .error "cannot merge trunk")
  else
    match checkDownstack noBranchCheck graphResult stateOf branch with
    | (evs, .error e) => (evs, .error e)
    | (evs, .ok _) =>
      let (mevs, r) := mergeDownstack env noWait
      (evs ++ mevs.map .forge, r)

/-! ### Auxiliary definitions for the theorems -/

/-- Events that mutate forge state or poll it while waiting:
`MergeChange`, `EditChange`, and the `ChangesStates` polling inside
`awaitMerged`. -/
def MergeEvent.isWriteOrPoll : MergeEvent → Bool
  | .mergeChange _ => true
  | .editChange _ _ => true
  | .awaitMerged _ => true
  | _ => false

/-- The operation order claimed for a successfully executed merge plan:
merge each item, and between consecutive items wait for the merge and
retarget the next change to trunk. -/
def canonicalMergeTrace (trunk : String) : List MergeItem → List MergeEvent
  | [] => []
  | [item] => [.mergeChange item.changeID]
  | item :: next :: rest =>
    .mergeChange item.changeID :: .awaitMerged item.changeID ::
      .editChange next.changeID trunk :: canonicalMergeTrace trunk (next :: rest)

/-- The stack `main ← A ← B ← C` of the stale-base scenario. -/
def exampleGraph : BranchGraph :=
  ⟨"main",
    [("A", ⟨"main", some "pr-A"⟩),
     ("B", ⟨"A", some "pr-B"⟩),
     ("C", ⟨"B", some "pr-C"⟩)]⟩

/-- Forge states of the stale-base scenario: the change of `A` is
already merged, everything else is open. -/
def exampleStates : ChangeID → ChangeState :=
  fun c => if c = "pr-A" then .Merged else .Open

/-! ## Theorems -/

/-- **C10.** For every invocation of `branch merge` where the resolved
branch equals the configured trunk, the command fails with
`cannot merge trunk` with an empty event trace: before building the
branch graph, before stale-base validation, and before any forge call. -/
theorem branchMerge_trunk_guard
    (trunk : String) (graphResult : Except String BranchGraph)
    (stateOf : ChangeID → ChangeState) (env : MergeEnv)
    (branch : String) (noWait noBranchCheck : Bool)
    (h : branch = trunk) :
    branchMergeRun trunk graphResult stateOf env branch noWait noBranchCheck =
      ([], .error "cannot merge trunk") := by
  subst h
  simp [branchMergeRun]

/-- Witness for C10 at a concrete invocation. -/
theorem branchMerge_trunk_guard_witness :
    branchMergeRun "main" (.ok exampleGraph) exampleStates
        { trunk := "main", listDownstack := .ok [],
          lookup := fun _ => .error "no", stateOf := fun _ => .Open,
          confirmResult := .ok true, mergeResult := fun _ => .ok (),
          awaitResult := fun _ => .ok (), editResult := fun _ => .ok () }
        "main" false false =
      ([], .error "cannot merge trunk") :=
  branchMerge_trunk_guard "main" (.ok exampleGraph) exampleStates _ "main"
    false false rfl

/-- **C8.** Running `branch untrack` on a branch that is not tracked
fails: `ForgetBranch` reports `ErrNotExist`, the command returns the
error `branch not tracked`, and the store is unchanged. -/
theorem branchUntrack_notTracked (store : TrackStore) (branch : String)
    (h : store.find? (fun p => p.1 = branch) = none) :
    forgetBranch store branch = .error .errNotExist ∧
      branchUntrackRun store branch = (store, .error "branch not tracked") := by
  have hf : forgetBranch store branch = .error .errNotExist := by
    unfold forgetBranch
    rw [h]
    rfl
  exact ⟨hf, by unfold branchUntrackRun; rw [hf]⟩

/-- Witness for C8: untracking `Z` in a store holding only `A` and `B`. -/
theorem branchUntrack_notTracked_witness :
    branchUntrackRun [("A", "main"), ("B", "A")] "Z" =
      ([("A", "main"), ("B", "A")], .error "branch not tracked") :=
  (branchUntrack_notTracked [("A", "main"), ("B", "A")] "Z" (by decide)).2

/-- **C9.** `LoadAuthenticationToken` resolves Bitbucket credentials in
precedence order: a set environment token is returned (tagged as
environment authentication) regardless of the other sources; otherwise
the stash token is used when present; otherwise git-credential-manager;
an error only when all sources fail. -/
theorem loadAuthenticationToken_precedence :
    (∀ envToken stored gcm stored2 gcm2,
      envToken ≠ "" →
      loadAuthenticationToken envToken stored gcm =
          .ok ⟨.environmentVariable, envToken, ""⟩ ∧
        loadAuthenticationToken envToken stored gcm =
          loadAuthenticationToken envToken stored2 gcm2) ∧
    (∀ gcm t, loadAuthenticationToken "" (.ok t) gcm = .ok t) ∧
    (∀ e t, loadAuthenticationToken "" (.error e) (.ok t) = .ok t) ∧
    (∀ e e', loadAuthenticationToken "" (.error e) (.error e') =
      .error "no authentication token available") := by
  refine ⟨fun envToken stored gcm stored2 gcm2 h => ?_, fun gcm t => rfl,
    fun e t => rfl, fun e e' => rfl⟩
  constructor <;> simp [loadAuthenticationToken, h]

/-- Witness for C9: a set environment token shadows both a stash token
and GCM credentials. -/
theorem loadAuthenticationToken_precedence_witness :
    loadAuthenticationToken "tok" (.ok ⟨.appPassword, "stash", "e"⟩)
        (.error "no gcm") =
      .ok ⟨.environmentVariable, "tok", ""⟩ :=
  (loadAuthenticationToken_precedence.1 "tok" (.ok ⟨.appPassword, "stash", "e"⟩)
    (.error "no gcm") (.error "x") (.error "y") (by decide)).1

/-- **C5 counterexample.** The claim "exit status 0 when the PR is
unmanaged (no git-spice navigation comment) and `--all` is not given"
fails when `--trunk` is passed: with `--trunk main`, no navigation
comment, no `--all`, and base `feat`, the command exits non-zero. -/
theorem mergeGuard_claim_counterexample :
    ¬ (∀ inp : GuardInput, inp.navComment = none → inp.allFlag = false →
        mergeGuard inp = true) := by
  intro h
  have := h ⟨some "main", false, none, "feat"⟩ rfl rfl
  simp [mergeGuard, detectTrunk, evaluate] at this

/-- **C5 (amended).** `ci merge-guard` exits 0 exactly when the base
equals the detected trunk (`--trunk`, or a nonempty trunk extracted
from a navigation comment), or the PR is unmanaged and neither `--all`
nor `--trunk` is given.  In particular `--trunk` treats every PR as
managed, and with `--all` an unmanaged PR is blocked. -/
theorem mergeGuard_exit_zero_iff (inp : GuardInput) :
    mergeGuard inp = true ↔
      (inp.trunkFlag = none ∧ inp.navComment = none ∧ inp.allFlag = false) ∨
      (∃ t, (inp.trunkFlag = some t ∨
              (inp.trunkFlag = none ∧ inp.navComment = some t ∧ t ≠ "")) ∧
            inp.baseName = t) := by
  obtain ⟨tf, af, nav, base⟩ := inp
  cases tf with
  | some t =>
    have hg : mergeGuard ⟨some t, af, nav, base⟩ = decide (base = t) := rfl
    rw [hg, decide_eq_true_eq]
    constructor
    · intro h; exact Or.inr ⟨t, Or.inl rfl, h⟩
    · rintro (⟨h, -⟩ | ⟨t', h1 | ⟨h0, -, -⟩, hb⟩)
      · exact absurd h (by simp)
      · rw [Option.some.inj h1]; exact hb
      · exact absurd h0 (by simp)
  | none =>
    cases nav with
    | none =>
      have hg : mergeGuard ⟨none, af, none, base⟩ = !af := rfl
      rw [hg]
      cases af with
      | false => exact iff_of_true rfl (Or.inl ⟨rfl, rfl, rfl⟩)
      | true =>
        refine iff_of_false (by simp) ?_
        rintro (⟨-, -, h⟩ | ⟨t', h1 | ⟨-, h2, -⟩, -⟩)
        · exact absurd h (by simp)
        · exact absurd h1 (by simp)
        · exact absurd h2 (by simp)
    | some t =>
      by_cases ht : t = ""
      · subst ht
        have hg : mergeGuard ⟨none, af, some "", base⟩ = false := rfl
        rw [hg]
        refine iff_of_false (by simp) ?_
        rintro (⟨-, h, -⟩ | ⟨t', h1 | ⟨-, h2, ht'⟩, -⟩)
        · exact absurd h (by simp)
        · exact absurd h1 (by simp)
        · exact ht' (Option.some.inj h2).symm
      · have hg : mergeGuard ⟨none, af, some t, base⟩ = decide (base = t) := by
          simp only [mergeGuard, detectTrunk, trunkFromNavComment]
          rw [if_pos ht]
          rfl
        rw [hg, decide_eq_true_eq]
        constructor
        · intro h; exact Or.inr ⟨t, Or.inr ⟨rfl, rfl, ht⟩, h⟩
        · rintro (⟨-, h, -⟩ | ⟨t', h1 | ⟨-, h2, -⟩, hb⟩)
          · exact absurd h (by simp)
          · exact absurd h1 (by simp)
          · rw [Option.some.inj h2]; exact hb

/-- Witness for C5: an unmanaged PR with no flags passes the guard. -/
theorem mergeGuard_exit_zero_iff_witness :
    mergeGuard ⟨none, false, none, "feat"⟩ = true :=
  (mergeGuard_exit_zero_iff ⟨none, false, none, "feat"⟩).mpr
    (Or.inl ⟨rfl, rfl, rfl⟩)

/-- The events of plan building are at most the single batched
`ChangesStates` query: never a prompt, merge, retarget, or poll. -/
lemma buildPlan_events (env : MergeEnv) :
    (buildPlan env).1 = [] ∨
      ∃ ids, (buildPlan env).1 = [MergeEvent.changesStates ids] := by
  unfold buildPlan
  cases env.listDownstack with
  | error e => exact Or.inl rfl
  | ok downstack =>
    simp only
    cases resolveChanges env.lookup downstack.reverse with
    | error e => exact Or.inl rfl
    | ok items => exact Or.inr ⟨items.map MergeItem.changeID, rfl⟩

/-- A `ChangesStates` query or a prompt is not a forge write or poll. -/
lemma buildPlan_events_not_write (env : MergeEnv) :
    ∀ ev ∈ (buildPlan env).1, ev.isWriteOrPoll = false := by
  rcases buildPlan_events env with h | ⟨ids, h⟩ <;> rw [h]
  · intro ev hev; cases hev
  · intro ev hev
    rw [List.mem_singleton] at hev
    subst hev
    rfl

/-- When every item in the batch reports `Merged`, the filtering loop
drops them all. -/
lemma filterMergedLoop_all_merged (stateOf : ChangeID → ChangeState) :
    ∀ items : List MergeItem,
      (∀ it ∈ items, stateOf it.changeID = .Merged) →
      filterMergedLoop stateOf items = .ok [] := by
  intro items
  induction items with
  | nil => intro _; rfl
  | cons item rest ih =>
    intro h
    have hhd := h item (List.mem_cons_self item rest)
    unfold filterMergedLoop
    rw [hhd]
    exact ih fun it hit => h it (List.mem_cons_of_mem item hit)

/-- **C7.** When the entire downstack is already merged on the forge,
`MergeDownstack` returns success after the single plan query: no
confirmation prompt, no `MergeChange`, no `EditChange`. -/
theorem mergeDownstack_all_merged (env : MergeEnv) (noWait : Bool)
    (downstack : List String) (items : List MergeItem)
    (hds : env.listDownstack = .ok downstack)
    (hres : resolveChanges env.lookup downstack.reverse = .ok items)
    (hmerged : ∀ it ∈ items, env.stateOf it.changeID = .Merged) :
    mergeDownstack env noWait =
      ([.changesStates (items.map (·.changeID))], .ok ()) := by
  have hloop := filterMergedLoop_all_merged env.stateOf items hmerged
  have hplan : buildPlan env =
      ([.changesStates (items.map (fun it => it.changeID))], .ok []) := by
    unfold buildPlan
    rw [hds]
    simp only
    rw [hres]
    exact congrArg
      (Prod.mk [MergeEvent.changesStates (items.map (fun it => it.changeID))])
      hloop
  unfold mergeDownstack
  rw [hplan]
  rfl

/-- Witness for C7: a two-branch downstack whose changes are both
already merged. -/
theorem mergeDownstack_all_merged_witness :
    mergeDownstack
        { trunk := "main", listDownstack := .ok ["B", "A"],
          lookup := fun b => .ok ⟨some ("pr-" ++ b)⟩,
          stateOf := fun _ => .Merged,
          confirmResult := .ok true, mergeResult := fun _ => .ok (),
          awaitResult := fun _ => .ok (), editResult := fun _ => .ok () }
        false =
      ([.changesStates ["pr-A", "pr-B"]], .ok ()) :=
  mergeDownstack_all_merged _ false ["B", "A"]
    [⟨"A", "pr-A"⟩, ⟨"B", "pr-B"⟩] rfl rfl (by decide)

/-- **C6.** When the confirmation prompt of `MergeDownstack` answers no,
the operation fails with `merge aborted`, the trace ends at the prompt,
and no `MergeChange`, `EditChange`, or polling call appears anywhere in
it: the forge is left unchanged. -/
theorem mergeDownstack_aborted (env : MergeEnv) (noWait : Bool)
    (plan : List MergeItem)
    (hplan : (buildPlan env).2 = .ok plan)
    (hne : plan ≠ [])
    (hno : env.confirmResult = .ok false) :
    mergeDownstack env noWait =
        ((buildPlan env).1 ++ [.confirmPrompt], .error "merge aborted") ∧
      ∀ ev ∈ (mergeDownstack env noWait).1, ev.isWriteOrPoll = false := by
  have hmd : mergeDownstack env noWait =
      ((buildPlan env).1 ++ [.confirmPrompt], .error "merge aborted") := by
    rcases hbp : buildPlan env with ⟨evs, r⟩
    rw [hbp] at hplan
    simp only at hplan
    subst hplan
    have hempty : plan.isEmpty = false := by
      cases plan with
      | nil => exact absurd rfl hne
      | cons a l => rfl
    unfold mergeDownstack
    rw [hbp]
    simp only [hempty, hno, Bool.false_eq_true, if_false]
  refine ⟨hmd, ?_⟩
  rw [hmd]
  intro ev hev
  rcases List.mem_append.mp hev with h | h
  · exact buildPlan_events_not_write env ev h
  · rw [List.mem_singleton] at h
    subst h
    rfl

/-- Witness for C6: answering no to the prompt aborts a one-branch
merge right after the prompt. -/
theorem mergeDownstack_aborted_witness :
    mergeDownstack
        { trunk := "main", listDownstack := .ok ["A"],
          lookup := fun b => .ok ⟨some ("pr-" ++ b)⟩,
          stateOf := fun _ => .Open,
          confirmResult := .ok false, mergeResult := fun _ => .ok (),
          awaitResult := fun _ => .ok (), editResult := fun _ => .ok () }
        false =
      ((buildPlan
        { trunk := "main", listDownstack := .ok ["A"],
          lookup := fun b => .ok ⟨some ("pr-" ++ b)⟩,
          stateOf := fun _ => .Open,
          confirmResult := .ok false, mergeResult := fun _ => .ok (),
          awaitResult := fun _ => .ok (), editResult := fun _ => .ok () }).1 ++
        [.confirmPrompt], .error "merge aborted") :=
  (mergeDownstack_aborted
    { trunk := "main", listDownstack := .ok ["A"],
      lookup := fun b => .ok ⟨some ("pr-" ++ b)⟩,
      stateOf := fun _ => .Open,
      confirmResult := .ok false, mergeResult := fun _ => .ok (),
      awaitResult := fun _ => .ok (), editResult := fun _ => .ok () }
    false [⟨"A", "pr-A"⟩] rfl (by simp) rfl).1

/-- When every branch resolves to a published change, `resolveChanges`
returns one `MergeItem` per branch, in order. -/
lemma resolveChanges_map (lookup : String → Except String LookupBranchResponse)
    (chg : String → ChangeID) :
    ∀ bs : List String,
      (∀ b ∈ bs, lookup b = .ok ⟨some (chg b)⟩) →
      resolveChanges lookup bs = .ok (bs.map (fun b => ⟨b, chg b⟩)) := by
  intro bs
  induction bs with
  | nil => intro _; rfl
  | cons b rest ih =>
    intro h
    have hb := h b (List.mem_cons_self b rest)
    have hrest := ih fun x hx => h x (List.mem_cons_of_mem b hx)
    unfold resolveChanges
    rw [hb]
    simp only
    rw [hrest]
    rfl

/-- One unfolding step of `resolveChanges` when the head lookup
succeeds. -/
lemma resolveChanges_cons_ok (lookup : String → Except String LookupBranchResponse)
    (b : String) (rest : List String) (r : LookupBranchResponse)
    (h : lookup b = .ok r) :
    resolveChanges lookup (b :: rest) =
      match r.change with
      | none => .error ("branch " ++ b ++ " has no published change request")
      | some cid =>
        match resolveChanges lookup rest with
        | .error e => .error e
        | .ok items => .ok (⟨b, cid⟩ :: items) := by
  conv_lhs => rw [resolveChanges]
  rw [h]

/-- When every lookup succeeds but some branch has no published change,
`resolveChanges` fails. -/
lemma resolveChanges_missing (lookup : String → Except String LookupBranchResponse)
    (resp : String → LookupBranchResponse) :
    ∀ bs : List String,
      (∀ b ∈ bs, lookup b = .ok (resp b)) →
      (∃ b ∈ bs, (resp b).change = none) →
      ∃ e, resolveChanges lookup bs = .error e := by
  intro bs
  induction bs with
  | nil =>
    rintro _ ⟨b, hmem, -⟩
    cases hmem
  | cons b rest ih =>
    rintro h ⟨x, hmem, hnone⟩
    have hb := h b (List.mem_cons_self b rest)
    rw [resolveChanges_cons_ok lookup b rest (resp b) hb]
    rcases List.mem_cons.mp hmem with heq | hxrest
    · subst heq
      rw [hnone]
      exact ⟨_, rfl⟩
    · cases hch : (resp b).change with
      | none => exact ⟨_, rfl⟩
      | some cid =>
        obtain ⟨e, he⟩ :=
          ih (fun y hy => h y (List.mem_cons_of_mem b hy)) ⟨x, hxrest, hnone⟩
        rw [he]
        exact ⟨e, rfl⟩

/-- With no closed change in the batch, the filtering loop keeps exactly
the open items, in order, dropping the merged ones. -/
lemma filterMergedLoop_noClosed (stateOf : ChangeID → ChangeState) :
    ∀ items : List MergeItem,
      (∀ it ∈ items, stateOf it.changeID ≠ .Closed) →
      filterMergedLoop stateOf items =
        .ok (items.filter (fun it => decide (stateOf it.changeID = .Open))) := by
  intro items
  induction items with
  | nil => intro _; rfl
  | cons item rest ih =>
    intro h
    have hrest := ih fun x hx => h x (List.mem_cons_of_mem item hx)
    unfold filterMergedLoop
    cases hstate : stateOf item.changeID with
    | Closed => exact absurd hstate (h item (List.mem_cons_self item rest))
    | Merged =>
      rw [hrest]
      have : (List.filter (fun it => decide (stateOf it.changeID = .Open))
          (item :: rest)) =
          List.filter (fun it => decide (stateOf it.changeID = .Open)) rest := by
        rw [List.filter_cons_of_neg]
        simp [hstate]
      rw [this]
    | Open =>
      rw [hrest]
      simp only
      rw [List.filter_cons_of_pos]
      simp [hstate]

/-- With a closed change in the batch, the filtering loop fails. -/
lemma filterMergedLoop_closed (stateOf : ChangeID → ChangeState) :
    ∀ items : List MergeItem,
      (∃ it ∈ items, stateOf it.changeID = .Closed) →
      ∃ e, filterMergedLoop stateOf items = .error e := by
  intro items
  induction items with
  | nil =>
    rintro ⟨it, hmem, -⟩
    cases hmem
  | cons item rest ih =>
    rintro ⟨it, hmem, hcl⟩
    unfold filterMergedLoop
    cases hstate : stateOf item.changeID with
    | Closed => exact ⟨_, rfl⟩
    | Merged =>
      rcases List.mem_cons.mp hmem with heq | hrest
      · subst heq; exact absurd hcl (by rw [hstate]; decide)
      · exact ih ⟨it, hrest, hcl⟩
    | Open =>
      rcases List.mem_cons.mp hmem with heq | hrest
      · subst heq; exact absurd hcl (by rw [hstate]; decide)
      · obtain ⟨e, he⟩ := ih ⟨it, hrest, hcl⟩
        rw [he]
        exact ⟨e, rfl⟩

/-- **C2.** `MergeDownstack` builds its plan from the downstack reversed
to bottom-up order; when every branch has a published change it issues
one `ChangesStates` query over all change ids and keeps exactly the open
changes in order, dropping merged ones; a closed change fails the whole
operation before any merge is attempted; a branch with no change record
fails the plan. -/
theorem buildPlan_characterization :
    (∀ (env : MergeEnv) (downstack : List String) (chg : String → ChangeID),
      env.listDownstack = .ok downstack →
      (∀ b ∈ downstack, env.lookup b = .ok ⟨some (chg b)⟩) →
      (buildPlan env).1 =
          [.changesStates (downstack.reverse.map chg)] ∧
        ((∀ b ∈ downstack, env.stateOf (chg b) ≠ .Closed) →
          (buildPlan env).2 =
            .ok ((downstack.reverse.map (fun b => MergeItem.mk b (chg b))).filter
              (fun it => decide (env.stateOf it.changeID = .Open)))) ∧
        ((∃ b ∈ downstack, env.stateOf (chg b) = .Closed) →
          (∃ e, (buildPlan env).2 = .error e) ∧
          ∀ noWait, ∀ ev ∈ (mergeDownstack env noWait).1,
            ev.isWriteOrPoll = false)) ∧
    (∀ (env : MergeEnv) (downstack : List String)
        (resp : String → LookupBranchResponse),
      env.listDownstack = .ok downstack →
      (∀ b ∈ downstack, env.lookup b = .ok (resp b)) →
      (∃ b ∈ downstack, (resp b).change = none) →
      ∃ e, (buildPlan env).2 = .error e) := by
  constructor
  · intro env downstack chg hds hlk
    have hres := resolveChanges_map env.lookup chg downstack.reverse
      (fun b hb => hlk b (List.mem_reverse.mp hb))
    have hbp : buildPlan env =
        filterMerged env.stateOf (downstack.reverse.map (fun b => ⟨b, chg b⟩)) := by
      unfold buildPlan
      rw [hds]
      simp only
      rw [hres]
    refine ⟨?_, ?_, ?_⟩
    · rw [hbp]
      unfold filterMerged
      simp only [List.map_map]
      rfl
    · intro hnc
      rw [hbp]
      unfold filterMerged
      simp only
      exact filterMergedLoop_noClosed env.stateOf _ fun it hit => by
        obtain ⟨b, hb, rfl⟩ := List.mem_map.mp hit
        exact hnc b (List.mem_reverse.mp hb)
    · intro ⟨b, hb, hcl⟩
      have herr := filterMergedLoop_closed env.stateOf
        (downstack.reverse.map (fun b => ⟨b, chg b⟩))
        ⟨⟨b, chg b⟩, List.mem_map_of_mem _ (List.mem_reverse.mpr hb), hcl⟩
      obtain ⟨e, he⟩ := herr
      have h2 : (buildPlan env).2 = .error e := by
        rw [hbp]
        unfold filterMerged
        simp only
        exact he
      refine ⟨⟨e, h2⟩, fun noWait ev hev => ?_⟩
      have hmd : (mergeDownstack env noWait).1 = (buildPlan env).1 := by
        unfold mergeDownstack
        rcases hpair : buildPlan env with ⟨evs, r⟩
        rw [hpair] at h2
        simp only at h2
        subst h2
        rfl
      rw [hmd] at hev
      exact buildPlan_events_not_write env ev hev
  · intro env downstack resp hds hlk hnone
    obtain ⟨e, he⟩ := resolveChanges_missing env.lookup resp downstack.reverse
      (fun b hb => hlk b (List.mem_reverse.mp hb))
      (by obtain ⟨b, hb, hn⟩ := hnone
          exact ⟨b, List.mem_reverse.mpr hb, hn⟩)
    refine ⟨e, ?_⟩
    unfold buildPlan
    rw [hds]
    simp only
    rw [he]

/-- Witness for C2: downstack `[C, B, A]` (top-first) with `A` merged,
`B` and `C` open, yielding the bottom-up plan `[B, C]`. -/
theorem buildPlan_characterization_witness :
    (buildPlan
      { trunk := "main", listDownstack := .ok ["C", "B", "A"],
        lookup := fun b => .ok ⟨some ("pr-" ++ b)⟩,
        stateOf := fun c => if c = "pr-A" then .Merged else .Open,
        confirmResult := .ok true, mergeResult := fun _ => .ok (),
        awaitResult := fun _ => .ok (), editResult := fun _ => .ok () }).2 =
      .ok [⟨"B", "pr-B"⟩, ⟨"C", "pr-C"⟩] := by
  have h := (buildPlan_characterization.1
    { trunk := "main", listDownstack := .ok ["C", "B", "A"],
      lookup := fun b => .ok ⟨some ("pr-" ++ b)⟩,
      stateOf := fun c => if c = "pr-A" then .Merged else .Open,
      confirmResult := .ok true, mergeResult := fun _ => .ok (),
      awaitResult := fun _ => .ok (), editResult := fun _ => .ok () }
    ["C", "B", "A"] (fun b => "pr-" ++ b) rfl (fun b _ => rfl)).2.1 (by decide)
  rw [h]
  rfl

/-- `validateDownstack` is the merged-candidate scan over the collected
candidates (the early return on an empty candidate list included). -/
lemma validateDownstack_eq (g : BranchGraph) (stateOf : ChangeID → ChangeState)
    (b : String) :
    validateDownstack g stateOf b =
      firstMergedCandidate stateOf (collectStaleCandidates g b) := by
  unfold validateDownstack
  cases collectStaleCandidates g b with
  | nil => rfl
  | cons c rest => rfl

/-- The scan yields an error exactly when some candidate is merged. -/
lemma firstMergedCandidate_isSome_iff (stateOf : ChangeID → ChangeState) :
    ∀ l : List StaleBaseCandidate,
      (∃ e, firstMergedCandidate stateOf l = some e) ↔
        ∃ c ∈ l, stateOf c.changeID = .Merged := by
  intro l
  induction l with
  | nil => simp [firstMergedCandidate]
  | cons c rest ih =>
    unfold firstMergedCandidate
    by_cases hs : stateOf c.changeID = .Merged
    · rw [if_pos hs]
      constructor
      · intro _; exact ⟨c, List.mem_cons_self c rest, hs⟩
      · intro _; exact ⟨⟨c.branch, c.base⟩, rfl⟩
    · rw [if_neg hs, ih]
      constructor
      · rintro ⟨x, hx, hm⟩; exact ⟨x, List.mem_cons_of_mem c hx, hm⟩
      · rintro ⟨x, hx, hm⟩
        rcases List.mem_cons.mp hx with heq | hxr
        · subst heq; exact absurd hm hs
        · exact ⟨x, hxr, hm⟩

/-- The scan result names the branch and base of a merged candidate. -/
lemma firstMergedCandidate_some (stateOf : ChangeID → ChangeState) :
    ∀ (l : List StaleBaseCandidate) (e : StaleBaseError),
      firstMergedCandidate stateOf l = some e →
      ∃ c ∈ l, stateOf c.changeID = .Merged ∧
        c.branch = e.branch ∧ c.base = e.base := by
  intro l
  induction l with
  | nil => intro e h; cases h
  | cons c rest ih =>
    intro e h
    unfold firstMergedCandidate at h
    by_cases hs : stateOf c.changeID = .Merged
    · rw [if_pos hs] at h
      obtain rfl := Option.some.inj h
      exact ⟨c, List.mem_cons_self c rest, hs, rfl, rfl⟩
    · rw [if_neg hs] at h
      obtain ⟨x, hx, hm, hbr, hba⟩ := ih e h
      exact ⟨x, List.mem_cons_of_mem c hx, hm, hbr, hba⟩

/-- A downstack entry produces a stale-base candidate exactly when its
base is not trunk and carries a published change. -/
lemma staleCandidateOf_some_iff (g : BranchGraph) (name : String)
    (c : StaleBaseCandidate) :
    staleCandidateOf g name = some c ↔
      ∃ item, g.lookup name = some item ∧ item.base ≠ g.trunk ∧
        ∃ bi, g.lookup item.base = some bi ∧
          ∃ cid, bi.change = some cid ∧ c = ⟨name, item.base, cid⟩ := by
  constructor
  · intro h
    unfold staleCandidateOf at h
    obtain ⟨item, hi, h2⟩ := Option.bind_eq_some.mp h
    by_cases hb : item.base = g.trunk
    · rw [if_pos hb] at h2; cases h2
    · rw [if_neg hb] at h2
      obtain ⟨bi, hbi, h3⟩ := Option.bind_eq_some.mp h2
      obtain ⟨cid, hcid, h4⟩ := Option.bind_eq_some.mp h3
      exact ⟨item, hi, hb, bi, hbi, cid, hcid, (Option.some.inj h4).symm⟩
  · rintro ⟨item, hi, hb, bi, hbi, cid, hcid, rfl⟩
    unfold staleCandidateOf
    refine Option.bind_eq_some.mpr ⟨item, hi, ?_⟩
    rw [if_neg hb]
    exact Option.bind_eq_some.mpr
      ⟨bi, hbi, Option.bind_eq_some.mpr ⟨cid, hcid, rfl⟩⟩

/-- Membership in the collected candidates. -/
lemma mem_collectStaleCandidates (g : BranchGraph) (b : String)
    (c : StaleBaseCandidate) :
    c ∈ collectStaleCandidates g b ↔
      ∃ name ∈ g.downstack b, staleCandidateOf g name = some c := by
  unfold collectStaleCandidates
  exact List.mem_filterMap

/-- **C3.** `ValidateDownstack` returns a `StaleBaseError` exactly when
some branch in the downstack has a base that is not trunk, whose base
has a published change whose forge state is `Merged`; the error names
that branch and its base; otherwise it returns nil.  In the stack
`main ← A ← B ← C` with the change of `A` merged,
`ValidateDownstack("C")` yields `StaleBaseError{Branch: B, Base: A}`. -/
theorem validateDownstack_stale_iff :
    (∀ (g : BranchGraph) (stateOf : ChangeID → ChangeState) (b : String),
      (∃ e, validateDownstack g stateOf b = some e) ↔
        ∃ name ∈ g.downstack b, ∃ item, g.lookup name = some item ∧
          item.base ≠ g.trunk ∧ ∃ bi, g.lookup item.base = some bi ∧
            ∃ cid, bi.change = some cid ∧ stateOf cid = .Merged) ∧
    (∀ (g : BranchGraph) (stateOf : ChangeID → ChangeState) (b : String)
        (e : StaleBaseError),
      validateDownstack g stateOf b = some e →
        e.branch ∈ g.downstack b ∧ ∃ item, g.lookup e.branch = some item ∧
          item.base = e.base ∧ e.base ≠ g.trunk ∧
          ∃ bi, g.lookup e.base = some bi ∧
            ∃ cid, bi.change = some cid ∧ stateOf cid = .Merged) ∧
    validateDownstack exampleGraph exampleStates "C" = some ⟨"B", "A"⟩ := by
  refine ⟨?_, ?_, by decide⟩
  · intro g stateOf b
    rw [validateDownstack_eq, firstMergedCandidate_isSome_iff]
    constructor
    · rintro ⟨c, hc, hm⟩
      obtain ⟨name, hname, hsome⟩ := (mem_collectStaleCandidates g b c).mp hc
      obtain ⟨item, hi, hb, bi, hbi, cid, hcid, rfl⟩ :=
        (staleCandidateOf_some_iff g name c).mp hsome
      exact ⟨name, hname, item, hi, hb, bi, hbi, cid, hcid, hm⟩
    · rintro ⟨name, hname, item, hi, hb, bi, hbi, cid, hcid, hm⟩
      refine ⟨⟨name, item.base, cid⟩, ?_, hm⟩
      exact (mem_collectStaleCandidates g b _).mpr
        ⟨name, hname,
          (staleCandidateOf_some_iff g name _).mpr
            ⟨item, hi, hb, bi, hbi, cid, hcid, rfl⟩⟩
  · intro g stateOf b e he
    rw [validateDownstack_eq] at he
    obtain ⟨c, hc, hm, hbr, hba⟩ :=
      firstMergedCandidate_some stateOf (collectStaleCandidates g b) e he
    obtain ⟨name, hname, hsome⟩ := (mem_collectStaleCandidates g b c).mp hc
    obtain ⟨item, hi, hb, bi, hbi, cid, hcid, rfl⟩ :=
      (staleCandidateOf_some_iff g name c).mp hsome
    simp only at hbr hba hm
    subst hbr
    refine ⟨hname, item, hi, hba, ?_, ?_⟩
    · rw [← hba]; exact hb
    · rw [← hba]; exact ⟨bi, hbi, cid, hcid, hm⟩

/-- Witness for C3: in the healthy stack `main ← feat1 ← feat2` with
every change open, `ValidateDownstack` returns nil. -/
theorem validateDownstack_stale_iff_witness :
    ¬ ∃ e, validateDownstack
        ⟨"main", [("feat1", ⟨"main", some "pr-1"⟩), ("feat2", ⟨"feat1", some "pr-2"⟩)]⟩
        (fun _ => .Open) "feat2" = some e := by
  rw [validateDownstack_stale_iff.1]
  rintro ⟨name, -, item, -, -, bi, -, cid, -, hm⟩
  cases hm

/-- The polling loop either succeeds or fails with the timeout error. -/
lemma awaitLoop_result :
    ∀ (fuel : Nat) (states : Nat → ChangeState) (elapsed delay : Nat),
      awaitLoop states elapsed delay fuel = .ok () ∨
        awaitLoop states elapsed delay fuel = .error "timed out waiting for merge" := by
  intro fuel
  induction fuel with
  | zero => intro states elapsed delay; exact Or.inr rfl
  | succ f ih =>
    intro states elapsed delay
    unfold awaitLoop
    by_cases hm : states 0 = .Merged
    · rw [if_pos hm]; exact Or.inl rfl
    · rw [if_neg hm]
      by_cases hlt : elapsed + delay < awaitTimeout
      · rw [if_pos hlt]; exact ih _ _ _
      · rw [if_neg hlt]; exact Or.inr rfl

/-- The loop always issues at least one poll when it has fuel. -/
lemma awaitPollCount_pos (elapsed delay f : Nat) :
    0 < awaitPollCount elapsed delay (f + 1) := by
  unfold awaitPollCount
  by_cases hlt : elapsed + delay < awaitTimeout
  · rw [if_pos hlt]; exact Nat.succ_pos _
  · rw [if_neg hlt]; exact Nat.one_pos

/-- The polling loop succeeds exactly when one of the polls that fit
before the deadline reports `Merged`. -/
lemma awaitLoop_ok_iff :
    ∀ (fuel : Nat) (states : Nat → ChangeState) (elapsed delay : Nat),
      awaitLoop states elapsed delay fuel = .ok () ↔
        ∃ n, n < awaitPollCount elapsed delay fuel ∧ states n = .Merged := by
  intro fuel
  induction fuel with
  | zero =>
    intro states elapsed delay
    refine iff_of_false (by simp [awaitLoop]) ?_
    rintro ⟨n, hn, -⟩
    simp [awaitPollCount] at hn
  | succ f ih =>
    intro states elapsed delay
    unfold awaitLoop
    by_cases hm : states 0 = .Merged
    · rw [if_pos hm]
      exact iff_of_true rfl ⟨0, awaitPollCount_pos elapsed delay f, hm⟩
    · rw [if_neg hm]
      by_cases hlt : elapsed + delay < awaitTimeout
      · rw [if_pos hlt, ih]
        have hcount : awaitPollCount elapsed delay (f + 1) =
            awaitPollCount (elapsed + delay) (nextDelay delay) f + 1 := by
          simp only [awaitPollCount]
          rw [if_pos hlt]
        rw [hcount]
        constructor
        · rintro ⟨n, hn, hmn⟩
          exact ⟨n + 1, by omega, hmn⟩
        · rintro ⟨n, hn, hmn⟩
          cases n with
          | zero => exact absurd hmn hm
          | succ m => exact ⟨m, by omega, hmn⟩
      · rw [if_neg hlt]
        have hcount : awaitPollCount elapsed delay (f + 1) = 1 := by
          simp only [awaitPollCount]
          rw [if_neg hlt]
        refine iff_of_false (by simp) ?_
        rw [hcount]
        rintro ⟨n, hn, hmn⟩
        interval_cases n
        exact absurd hmn hm

/-- Exactly 19 polls fit in the two-minute budget. -/
lemma awaitPollCount_19 : awaitPollCount 0 initialDelay 32 = 19 := by decide

/-- **C4.** `awaitMerged` polls with exponential backoff, 500 ms
initially, doubling each round, capped at 8 s, under a 2 min total
timeout (which admits exactly 19 polls: the 19th poll happens at
119.5 s and the next sleep would cross the deadline); it succeeds
exactly when one of those polls reports `Merged`, and otherwise fails
with the timeout error. -/
theorem awaitMerged_backoff_spec :
    (∀ states, (awaitMerged states = .ok () ↔
      ∃ n, n < 19 ∧ states n = ChangeState.Merged)) ∧
    (∀ states, awaitMerged states ≠ .ok () →
      awaitMerged states = .error "timed out waiting for merge") ∧
    (∀ k, delaySeq k = min (initialDelay * 2 ^ k) maxDelay) ∧
    (pollTime 18 < awaitTimeout ∧ awaitTimeout ≤ pollTime 18 + delaySeq 18) := by
  refine ⟨?_, ?_, ?_, by decide, by decide⟩
  · intro states
    unfold awaitMerged
    rw [awaitLoop_ok_iff, awaitPollCount_19]
  · intro states hne
    rcases awaitLoop_result 32 states 0 initialDelay with h | h
    · exact absurd h hne
    · exact h
  · intro k
    induction k with
    | zero => decide
    | succ k ih =>
      show nextDelay (delaySeq k) = _
      rw [ih, pow_succ, ← mul_assoc]
      simp only [nextDelay, maxDelay, initialDelay]
      omega

/-- Witness for C4: a change that shows merged at the fourth poll is
awaited successfully. -/
theorem awaitMerged_backoff_spec_witness :
    awaitMerged (fun n => if n = 3 then ChangeState.Merged else .Open) = .ok () :=
  (awaitMerged_backoff_spec.1 _).mpr ⟨3, by decide, by decide⟩

/-- A successful `settleAndRetarget` emitted exactly the await followed
by the retarget. -/
lemma settleAndRetarget_ok_shape (env : MergeEnv) (next merged : MergeItem)
    (evs : List MergeEvent) (u : Unit)
    (h : settleAndRetarget env next merged = (evs, .ok u)) :
    evs = [.awaitMerged merged.changeID,
           .editChange next.changeID env.trunk] := by
  unfold settleAndRetarget at h
  cases haw : env.awaitResult merged.changeID with
  | error e =>
    rw [haw] at h
    have h2 := congrArg Prod.snd h
    simp at h2
  | ok v =>
    cases hed : env.editResult next.changeID with
    | error e =>
      rw [haw, hed] at h
      have h2 := congrArg Prod.snd h
      simp at h2
    | ok w =>
      rw [haw, hed] at h
      exact (congrArg Prod.fst h).symm

/-- On success, the trace of `executePlan` with waiting enabled is the
canonical merge/await/retarget interleaving. -/
lemma executePlan_ok_trace (env : MergeEnv) :
    ∀ plan : List MergeItem,
      (executePlan env false plan).2 = .ok () →
      (executePlan env false plan).1 = canonicalMergeTrace env.trunk plan := by
  intro plan
  induction plan with
  | nil => intro _; rfl
  | cons item rest ih =>
    intro hok
    cases hmr : env.mergeResult item.changeID with
    | error e =>
      have hexec : executePlan env false (item :: rest) =
          ([.mergeChange item.changeID],
            .error ("merge " ++ item.branch ++ ": " ++ e)) := by
        simp [executePlan, hmr]
      rw [hexec] at hok
      cases hok
    | ok v =>
      cases rest with
      | nil =>
        have hexec : executePlan env false [item] =
            ([.mergeChange item.changeID], .ok ()) := by
          simp [executePlan, hmr]
        rw [hexec]
        rfl
      | cons next rest2 =>
        rcases hsr : settleAndRetarget env next item with ⟨evs, r⟩
        cases r with
        | error e =>
          have hexec : executePlan env false (item :: next :: rest2) =
              (.mergeChange item.changeID :: evs, .error e) := by
            simp [executePlan, hmr, hsr]
          rw [hexec] at hok
          cases hok
        | ok u =>
          rcases hep : executePlan env false (next :: rest2) with ⟨evs2, r2⟩
          have hexec : executePlan env false (item :: next :: rest2) =
              (.mergeChange item.changeID :: (evs ++ evs2), r2) := by
            conv_lhs => rw [executePlan]
            simp [hmr, hsr, hep]
          rw [hexec] at hok
          have hr2 : r2 = .ok () := hok
          subst hr2
          have hevs := settleAndRetarget_ok_shape env next item evs u hsr
          have hepok : (executePlan env false (next :: rest2)).2 = .ok () := by
            rw [hep]
          have htr : evs2 = canonicalMergeTrace env.trunk (next :: rest2) := by
            have h5 := ih hepok
            rw [hep] at h5
            exact h5
          rw [hexec, hevs, htr]
          rfl

/-- Length of the canonical trace: three events per item except the
last, which only gets its merge. -/
lemma canonicalMergeTrace_length (trunk : String) :
    ∀ plan : List MergeItem,
      (canonicalMergeTrace trunk plan).length = 3 * plan.length - 2 := by
  intro plan
  induction plan with
  | nil => rfl
  | cons item rest ih =>
    cases rest with
    | nil => rfl
    | cons next rest2 =>
      show (canonicalMergeTrace trunk (next :: rest2)).length + 3 = _
      rw [ih]
      simp only [List.length_cons]
      omega

/-- Unfolding of the canonical trace on a plan with two or more items. -/
lemma canonicalMergeTrace_cons_cons (trunk : String) (item next : MergeItem)
    (rest2 : List MergeItem) :
    canonicalMergeTrace trunk (item :: next :: rest2) =
      .mergeChange item.changeID :: .awaitMerged item.changeID ::
        .editChange next.changeID trunk ::
          canonicalMergeTrace trunk (next :: rest2) := rfl

/-- The canonical trace places the merge, await and retarget events of
consecutive plan items at indices `3i`, `3i+1`, `3i+2`. -/
lemma canonicalMergeTrace_get (trunk : String) :
    ∀ (plan : List MergeItem) (i : Nat) (it it' : MergeItem),
      plan[i]? = some it → plan[i + 1]? = some it' →
      (canonicalMergeTrace trunk plan)[3 * i]? =
          some (.mergeChange it.changeID) ∧
        (canonicalMergeTrace trunk plan)[3 * i + 1]? =
          some (.awaitMerged it.changeID) ∧
        (canonicalMergeTrace trunk plan)[3 * i + 2]? =
          some (.editChange it'.changeID trunk) := by
  intro plan
  induction plan with
  | nil =>
    intro i it it' h1 _
    rw [List.getElem?_nil] at h1
    cases h1
  | cons item rest ih =>
    intro i it it' h1 h2
    cases rest with
    | nil =>
      rw [List.getElem?_cons_succ, List.getElem?_nil] at h2
      cases h2
    | cons next rest2 =>
      cases i with
      | zero =>
        rw [List.getElem?_cons_zero] at h1
        obtain rfl := Option.some.inj h1
        rw [List.getElem?_cons_succ, List.getElem?_cons_zero] at h2
        obtain rfl := Option.some.inj h2
        refine ⟨?_, ?_, ?_⟩ <;> simp [canonicalMergeTrace_cons_cons]
      | succ j =>
        rw [List.getElem?_cons_succ] at h1 h2
        obtain ⟨g1, g2, g3⟩ := ih j it it' h1 h2
        have e1 : 3 * (j + 1) = 3 * j + 1 + 1 + 1 := by ring
        have e2 : 3 * (j + 1) + 1 = 3 * j + 1 + 1 + 1 + 1 := by ring
        have e3 : 3 * (j + 1) + 2 = 3 * j + 2 + 1 + 1 + 1 := by ring
        rw [canonicalMergeTrace_cons_cons]
        refine ⟨?_, ?_, ?_⟩
        · rw [e1, List.getElem?_cons_succ, List.getElem?_cons_succ,
            List.getElem?_cons_succ]
          exact g1
        · rw [e2, List.getElem?_cons_succ, List.getElem?_cons_succ,
            List.getElem?_cons_succ]
          exact g2
        · rw [e3, List.getElem?_cons_succ, List.getElem?_cons_succ,
            List.getElem?_cons_succ]
          exact g3

/-- The canonical trace ends with the merge of the last plan item. -/
lemma canonicalMergeTrace_last (trunk : String) :
    ∀ (plan : List MergeItem) (itL : MergeItem),
      plan[plan.length - 1]? = some itL →
      (canonicalMergeTrace trunk plan)[3 * (plan.length - 1)]? =
        some (.mergeChange itL.changeID) := by
  intro plan
  induction plan with
  | nil =>
    intro itL h
    rw [List.getElem?_nil] at h
    cases h
  | cons item rest ih =>
    intro itL h
    cases rest with
    | nil =>
      simp only [List.length_cons, List.length_nil] at h
      rw [List.getElem?_cons_zero] at h
      obtain rfl := Option.some.inj h
      simp [canonicalMergeTrace]
    | cons next rest2 =>
      have hlen : (item :: next :: rest2).length - 1 =
          ((next :: rest2).length - 1) + 1 := by
        simp only [List.length_cons]
        omega
      rw [hlen, List.getElem?_cons_succ] at h
      have g := ih itL h
      have e1 : 3 * (((next :: rest2).length - 1) + 1) =
          3 * ((next :: rest2).length - 1) + 1 + 1 + 1 := by ring
      rw [hlen, e1, canonicalMergeTrace_cons_cons, List.getElem?_cons_succ,
        List.getElem?_cons_succ, List.getElem?_cons_succ]
      exact g

/-- **C1.** A merge plan executed with `noWait = false` that succeeds
issues its operations in the order
`MergeChange(plan[i])`, `awaitMerged(plan[i])`,
`EditChange(plan[i+1], base := trunk)`, `MergeChange(plan[i+1])` for
every non-final index `i`, and the trace ends with the `MergeChange` of
the last item: no await and no retarget follows it. -/
theorem executePlan_merge_order (env : MergeEnv) (plan : List MergeItem)
    (_hne : plan ≠ [])
    (hok : (executePlan env false plan).2 = .ok ()) :
    (executePlan env false plan).1.length = 3 * plan.length - 2 ∧
      (∀ (i : Nat) (it it' : MergeItem),
        plan[i]? = some it → plan[i + 1]? = some it' →
        (executePlan env false plan).1[3 * i]? =
            some (.mergeChange it.changeID) ∧
          (executePlan env false plan).1[3 * i + 1]? =
            some (.awaitMerged it.changeID) ∧
          (executePlan env false plan).1[3 * i + 2]? =
            some (.editChange it'.changeID env.trunk)) ∧
      (∀ itL : MergeItem, plan[plan.length - 1]? = some itL →
        (executePlan env false plan).1[3 * (plan.length - 1)]? =
          some (.mergeChange itL.changeID)) := by
  have htr := executePlan_ok_trace env plan hok
  rw [htr]
  exact ⟨canonicalMergeTrace_length env.trunk plan,
    fun i it it' h1 h2 => canonicalMergeTrace_get env.trunk plan i it it' h1 h2,
    fun itL hL => canonicalMergeTrace_last env.trunk plan itL hL⟩

/-- Witness for C1: a successful two-item plan produces the trace
merge, await, retarget, merge. -/
theorem executePlan_merge_order_witness :
    (executePlan
        { trunk := "main", listDownstack := .ok [],
          lookup := fun _ => .error "unused", stateOf := fun _ => .Open,
          confirmResult := .ok true, mergeResult := fun _ => .ok (),
          awaitResult := fun _ => .ok (), editResult := fun _ => .ok () }
        false [⟨"A", "pr-A"⟩, ⟨"B", "pr-B"⟩]).1[2]? =
      some (.editChange "pr-B" "main") :=
  ((executePlan_merge_order
      { trunk := "main", listDownstack := .ok [],
        lookup := fun _ => .error "unused", stateOf := fun _ => .Open,
        confirmResult := .ok true, mergeResult := fun _ => .ok (),
        awaitResult := fun _ => .ok (), editResult := fun _ => .ok () }
      [⟨"A", "pr-A"⟩, ⟨"B", "pr-B"⟩] (by simp) rfl).2.1 0
    ⟨"A", "pr-A"⟩ ⟨"B", "pr-B"⟩ rfl rfl).2.2

end GitSpice
